import Mathlib

/-!
Verification development for the Financial-Dashboard backend
(`Backend/services/*.py`, `Backend/main_combined.py`).

The Python services are shallowly embedded: pure computations become Lean
functions over `ℚ` / `ℕ` / `String`, the mutable provider state
(rate-limit flag, auth token) becomes explicit state passing, and network
calls become oracle functions passed as arguments.  Absent/failed results
are `Option`/`Except` values.  Wall-clock time is a `ℕ` (seconds).
-/

namespace FinDash

/-! ### String helpers (Python `str` operations used by the services) -/

/-- Fuel-indexed worker for Python `str.replace`: replace every
non-overlapping occurrence of `pat`, scanning left to right.  The fuel is
always instantiated with the length of the scanned list, which suffices
because each step consumes at least one character. -/
def replaceAllAux (pat rep : List Char) : Nat → List Char → List Char
  | 0, l => l
  | _ + 1, [] => []
  | fuel + 1, c :: rest =>
    if pat ≠ [] ∧ pat.isPrefixOf (c :: rest) then
      rep ++ replaceAllAux pat rep fuel ((c :: rest).drop pat.length)
    else
      c :: replaceAllAux pat rep fuel rest

/-- Python `str.replace(pat, rep)` on character lists (call sites in the
repository never pass an empty pattern). -/
def replaceAll (pat rep l : List Char) : List Char :=
  replaceAllAux pat rep l.length l

/-- Python `s.replace(pat, rep)` on `String`. -/
def pyReplace (s pat rep : String) : String :=
  ⟨replaceAll pat.toList rep.toList s.toList⟩

/-- Python `s.endswith(suffix)`. -/
def strEndsWith (s suffixStr : String) : Bool :=
  suffixStr.toList.isSuffixOf s.toList

/-- Contiguous-substring test on character lists. -/
def listContains (pat : List Char) : List Char → Bool
  | [] => pat.isEmpty
  | c :: rest => pat.isPrefixOf (c :: rest) || listContains pat rest

/-- Python `needle in hay` (substring containment). -/
def strContains (hay needle : String) : Bool :=
  listContains needle.toList hay.toList

/-- Python `s.lower()` (ASCII case folding, which is all the call sites use). -/
def lowerStr (s : String) : String :=
  ⟨s.toList.map Char.toLower⟩

/-! ### Symbol Mapper (`Backend/services/symbol_mapping.py`) -/

/-- The static `indian_to_us_mapping` table of `SymbolMappingService.__init__`. -/
def indian_to_us_mapping : List (String × String) :=
  [ ("RELIANCE.NS", "RELIANCE.BSE"),
    ("TCS.NS", "TCS.BSE"),
    ("HDFCBANK.NS", "HDB"),
    ("INFY.NS", "INFY"),
    ("HINDUNILVR.NS", "HINDUNILEVR.BSE"),
    ("ITC.NS", "ITC.BSE"),
    ("SBIN.NS", "SBIN.BSE"),
    ("BHARTIARTL.NS", "BHRT.BSE"),
    ("KOTAKBANK.NS", "KOTAKBANK.BSE"),
    ("LT.NS", "LTT.BSE"),
    ("WIPRO.NS", "WIT"),
    ("ASIANPAINT.NS", "ASIANPAINT.BSE"),
    ("MARUTI.NS", "MARUTI.BSE"),
    ("NESTLEIND.NS", "NESTLEIND.BSE"),
    ("TITAN.NS", "TITAN.BSE"),
    ("ULTRACEMCO.NS", "ULTRACEMCO.BSE"),
    ("BAJFINANCE.NS", "BAJFINANCE.BSE"),
    ("BAJAJFINSV.NS", "BAJAJFINSV.BSE"),
    ("HCLTECH.NS", "HCLTECH.BSE"),
    ("TECHM.NS", "TECHM.BSE") ]

/-- Source `SymbolMappingService.get_us_symbol`: dictionary lookup in the static table. -/
def get_us_symbol (indian_symbol : String) : Option String :=
  indian_to_us_mapping.lookup indian_symbol

/-- Source `SymbolMappingService.is_indian_symbol`:
`symbol.endswith('.NS') or symbol.endswith('.BSE')`. -/
def is_indian_symbol (symbol : String) : Bool :=
  strEndsWith symbol ".NS" || strEndsWith symbol ".BSE"

/-- Source `SymbolMappingService.get_alpha_vantage_fallback_symbols`: the mapped US
symbol when the table has an entry, then the base symbol obtained by
`symbol.replace('.NS', '').replace('.BSE', '')`, then the base symbol with
`.BSE` and with `.NS` appended. -/
def get_alpha_vantage_fallback_symbols (indian_symbol : String) : List String :=
  let base := pyReplace (pyReplace indian_symbol ".NS" "") ".BSE" ""
  (match get_us_symbol indian_symbol with
   | some us => [us]
   | none => []) ++ [base, base ++ ".BSE", base ++ ".NS"]

/-- Source `AlphaVantageService._get_fallback_symbols`: the mapping service's
fallback list for Indian symbols, `[symbol]` otherwise. -/
def _get_fallback_symbols (symbol : String) : List String :=
  if is_indian_symbol symbol then get_alpha_vantage_fallback_symbols symbol
  else [symbol]

/-- Stated from the spec's words, for comparison with the code (claim C8):
the "bare ticker with the suffix stripped" obtained by removing the single
terminal `.NS` / `.BSE` suffix. -/
def stripIndianSuffix (s : String) : String :=
  if strEndsWith s ".NS" then ⟨s.toList.take (s.toList.length - 3)⟩
  else if strEndsWith s ".BSE" then ⟨s.toList.take (s.toList.length - 4)⟩
  else s

/-- Stated from the spec's words, for comparison with the code (claim C8):
the fallback-candidate list as the claim describes it — mapped symbol when
an entry exists, then the suffix-stripped bare ticker, then the bare ticker
with `.BSE`, then with `.NS`; `[s]` for non-Indian symbols. -/
def spec_fallback_candidates (s : String) : List String :=
  if is_indian_symbol s then
    let bare := stripIndianSuffix s
    (match get_us_symbol s with
     | some us => [us]
     | none => []) ++ [bare, bare ++ ".BSE", bare ++ ".NS"]
  else [s]

/-! ### Indicator Calculator
(`HybridDataService.get_technical_indicators`, `_calculate_rsi` in
`Backend/services/hybrid_data_service.py`; the same pandas formulas appear in
`AlphaVantageHybrid._get_yahoo_fallback`).  Close prices are modelled as `ℚ`;
the IEEE special values produced by pandas divisions (`inf`, `NaN`) are
modelled by the `FVal` type below.  The facts proved about these functions do
not depend on rounding: the divisions involved are exact at the inputs
considered. -/

/-- pandas `rolling(window=n).mean()`: at position `i` the mean of the `n`
values ending at `i`, `none` (pandas `NaN`) while fewer than `n` values are
available.  Pandas rejects `window=0`; theorems assume `0 < n`. -/
def rollingMean (n : Nat) (xs : List ℚ) : List (Option ℚ) :=
  (List.range xs.length).map fun i =>
    if n ≤ i + 1 then some (((xs.take (i + 1)).drop (i + 1 - n)).sum / n)
    else none

/-- Worker for pandas `ewm(span=span, adjust=True).mean()` (the default
`adjust=True` is what every call site uses): pandas maintains the weighted
numerator and denominator, `num_t = x_t + (1-a)·num_{t-1}` and
`den_t = 1 + (1-a)·den_{t-1}`, and emits `num_t / den_t`. -/
def ewmAux (a : ℚ) : ℚ → ℚ → List ℚ → List ℚ
  | _, _, [] => []
  | num, den, x :: rest =>
    let num' := x + (1 - a) * num
    let den' := 1 + (1 - a) * den
    num' / den' :: ewmAux a num' den' rest

/-- pandas `ewm(span=span).mean()` with smoothing factor `a = 2/(span+1)`. -/
def ewmMean (span : Nat) (xs : List ℚ) : List ℚ :=
  ewmAux (2 / ((span : ℚ) + 1)) 0 0 xs

/-- Exponentially weighted sum `Σ (1-a)^i · l[i]` over a most-recent-first
list — the numerator of the adjusted EMA in closed form. -/
def expWeightedSum (a : ℚ) : List ℚ → ℚ
  | [] => 0
  | x :: rest => x + (1 - a) * expWeightedSum a rest

/-- Geometric weight total `Σ_{i<n} (1-a)^i` — the denominator of the
adjusted EMA in closed form. -/
def expWeightTotal (a : ℚ) : Nat → ℚ
  | 0 => 0
  | n + 1 => 1 + (1 - a) * expWeightTotal a n

/-- IEEE-754 value classes relevant to the pandas RSI computation: a finite
value (`ℚ`, since the divisions at issue are exact), `+∞`, `−∞`, or `NaN`.
Signed zero is not distinguished (no call site produces `−0`). -/
inductive FVal where
  | nan : FVal
  | pinf : FVal
  | ninf : FVal
  | fin : ℚ → FVal
deriving DecidableEq, Repr

/-- IEEE division on `FVal` (the cases numpy produces for the RSI series):
`x/0` is `±∞` for `x ≠ 0` and `NaN` for `0/0`; finite over infinite is `0`. -/
def fdiv : FVal → FVal → FVal
  | .nan, _ => .nan
  | _, .nan => .nan
  | .fin a, .fin b =>
    if b = 0 then (if a = 0 then .nan else if 0 < a then .pinf else .ninf)
    else .fin (a / b)
  | .fin _, .pinf => .fin 0
  | .fin _, .ninf => .fin 0
  | .pinf, .fin b => if 0 ≤ b then .pinf else .ninf
  | .ninf, .fin b => if 0 ≤ b then .ninf else .pinf
  | .pinf, .pinf => .nan
  | .pinf, .ninf => .nan
  | .ninf, .pinf => .nan
  | .ninf, .ninf => .nan

/-- IEEE addition on `FVal`. -/
def fadd : FVal → FVal → FVal
  | .nan, _ => .nan
  | _, .nan => .nan
  | .fin a, .fin b => .fin (a + b)
  | .pinf, .ninf => .nan
  | .ninf, .pinf => .nan
  | .pinf, _ => .pinf
  | _, .pinf => .pinf
  | .ninf, _ => .ninf
  | _, .ninf => .ninf

/-- IEEE subtraction on `FVal`. -/
def fsub : FVal → FVal → FVal
  | .nan, _ => .nan
  | _, .nan => .nan
  | .fin a, .fin b => .fin (a - b)
  | .pinf, .pinf => .nan
  | .ninf, .ninf => .nan
  | .pinf, _ => .pinf
  | .ninf, _ => .ninf
  | .fin _, .pinf => .ninf
  | .fin _, .ninf => .pinf

/-- pandas `prices.diff()` without its leading `NaN`: consecutive deltas
`p_{i+1} - p_i`. -/
def deltas (ps : List ℚ) : List ℚ :=
  List.zipWith (fun a b => a - b) ps.tail ps

/-- The `gain` series of `_calculate_rsi`:
`delta.where(delta > 0, 0)`.  The leading `NaN` of `diff()` fails the
`delta > 0` test and is replaced by `0`, hence the leading `0`. -/
def gains : List ℚ → List ℚ
  | [] => []
  | p :: rest => 0 :: (deltas (p :: rest)).map fun d => if 0 < d then d else 0

/-- The `loss` series of `_calculate_rsi`:
`(-delta.where(delta < 0, 0))`; the leading `NaN` becomes `-0 = 0`. -/
def losses : List ℚ → List ℚ
  | [] => []
  | p :: rest => 0 :: (deltas (p :: rest)).map fun d => if d < 0 then -d else 0

/-- Last entry of pandas `rolling(window=n).mean()`: mean of the final `n`
values, `none` (`NaN`) when the series is shorter than `n`. -/
def rollMeanLast (n : Nat) (xs : List ℚ) : Option ℚ :=
  if n ≤ xs.length then some ((xs.drop (xs.length - n)).sum / n) else none

/-- Source `HybridDataService._calculate_rsi` (default `period=14`): gain and loss
rolling means, `rs = gain/loss`, `rsi = 100 - 100/(1+rs)`, returning
`rsi.iloc[-1]`.  An empty price series makes `iloc[-1]` raise, which the
bare `except` turns into Python `None` (`none` here); an insufficient window
propagates `NaN` instead. -/
def calcRSI (ps : List ℚ) : Option FVal :=
  match ps with
  | [] => none
  | _ :: _ =>
    match rollMeanLast 14 (gains ps), rollMeanLast 14 (losses ps) with
    | some g, some l =>
      some (fsub (.fin 100) (fdiv (.fin 100) (fadd (.fin 1) (fdiv (.fin g) (.fin l)))))
    | _, _ => some .nan

/-- Decidable form of claim C4's hypothesis: every delta in the trailing
14-delta window is non-negative (no losses). -/
def nonNegTrailingDeltas (ps : List ℚ) : Bool :=
  ((deltas ps).drop ((deltas ps).length - 14)).all fun d => decide (0 ≤ d)

/-! ### Hybrid Resolver (`Backend/services/alpha_vantage_hybrid.py`)
`AlphaVantageHybrid.get_quote` routes Indian symbols straight to the Yahoo
Finance fallback and tries Alpha Vantage first for the rest.  The two
network adapters are oracles in the environment; a trace of adapter
invocations is returned alongside the result so that "adapter X was never
called" is expressible. -/

/-- Raw Yahoo Finance data used by `_get_yahoo_fallback(symbol, 'quote')`:
the last row of `ticker.history(period="1d")` plus `ticker.info` fields.
`previousClose` is `none` when `info` lacks the key (`info.get` then
defaults to the current price).  `none` for the whole record models an
empty history / empty info / raised exception, each of which makes the
Python function return `None`. -/
structure YahooRaw where
  close : ℚ
  openP : ℚ
  highP : ℚ
  lowP : ℚ
  volume : ℤ
  previousClose : Option ℚ
  marketCap : ℤ
  currency : String
deriving DecidableEq, Repr

/-- A normalized quote record as built by the Yahoo fallback paths. -/
structure Quote where
  symbol : String
  price : ℚ
  change : ℚ
  change_percent : ℚ
  volume : ℤ
  highP : ℚ
  lowP : ℚ
  openP : ℚ
  previous_close : ℚ
  source : String
deriving DecidableEq, Repr

/-- Quote construction of `AlphaVantageHybrid._get_yahoo_fallback`
(`data_type='quote'`): `previous_close = info.get('previousClose',
current_price)`, `change = current - previous_close`, and
`change_percent = (change / previous_close) * 100 if previous_close != 0
else 0`. -/
def mkYahooHybridQuote (symbol : String) (d : YahooRaw) : Quote :=
  let current := d.close
  let prev := d.previousClose.getD current
  let change := current - prev
  let change_percent := if prev ≠ 0 then change / prev * 100 else 0
  { symbol := symbol
    price := current
    change := change
    change_percent := change_percent
    volume := d.volume
    highP := d.highP
    lowP := d.lowP
    openP := d.openP
    previous_close := prev
    source := "Yahoo Finance (Hybrid Fallback)" }

/-- One provider invocation, for call traces. -/
inductive PCall where
  | alphaVantage : String → PCall
  | yahooFinance : String → PCall
deriving DecidableEq, Repr

/-- Result of `AlphaVantageHybrid.get_quote`: either the Alpha Vantage
payload dict (key/value rows of `data.iloc[0]` plus the symbol and the
source tag written at the call site) or the Yahoo fallback quote. -/
inductive HybridResult where
  | avQuote : String → List (String × String) → String → HybridResult
  | yQuote : Quote → HybridResult
deriving DecidableEq, Repr

/-- The `source` field of a hybrid result dict. -/
def HybridResult.source : HybridResult → String
  | .avQuote _ _ s => s
  | .yQuote q => q.source

/-- Environment of `AlphaVantageHybrid`: whether the Alpha Vantage client is
configured (`self.enabled`), the Alpha Vantage `get_quote_endpoint` oracle
(`.error msg` for a raised exception, `.ok none` for an empty frame,
`.ok (some rows)` for a data row), and the Yahoo Finance oracle. -/
structure HybridEnv where
  enabled : Bool
  av : String → Except String (Option (List (String × String)))
  yahoo : String → Option YahooRaw

/-- Source `AlphaVantageHybrid.get_quote`: Indian symbols go straight to the Yahoo
fallback; otherwise Alpha Vantage is tried first (when enabled) and the
Yahoo fallback is used on an empty frame or on any exception (the
rate-limit phrase match in this class only selects the log message).
Returns the result together with the adapter-invocation trace. -/
def hybrid_get_quote (env : HybridEnv) (symbol : String) :
    Option HybridResult × List PCall :=
  if is_indian_symbol symbol then
    ((env.yahoo symbol).map fun d => .yQuote (mkYahooHybridQuote symbol d),
     [.yahooFinance symbol])
  else if env.enabled then
    match env.av symbol with
    | .ok (some rows) =>
      (some (.avQuote symbol rows "Alpha Vantage"), [.alphaVantage symbol])
    | .ok none =>
      ((env.yahoo symbol).map fun d => .yQuote (mkYahooHybridQuote symbol d),
       [.alphaVantage symbol, .yahooFinance symbol])
    | .error _ =>
      ((env.yahoo symbol).map fun d => .yQuote (mkYahooHybridQuote symbol d),
       [.alphaVantage symbol, .yahooFinance symbol])
  else
    ((env.yahoo symbol).map fun d => .yQuote (mkYahooHybridQuote symbol d),
     [.yahooFinance symbol])

/-! ### Alpha Vantage service (`Backend/services/alpha_vantage_service.py`)
`AlphaVantageService.get_stock_quote` with its process-wide rate-limit flag
(`_is_rate_limited` / `_mark_rate_limited`) and the Yahoo Finance fallback
(`_get_fallback_quote`).  Time is in seconds; `timedelta(hours=24)` is
`24 * 3600`. -/

/-- The mutable rate-limit attributes of the service instance.  Python
creates them lazily (`hasattr`); an absent attribute behaves like
`false` / `None`, which is the initial state here. -/
structure AVState where
  rate_limited : Bool
  rate_limit_reset_time : Option Nat
deriving DecidableEq, Repr

/-- Source `AlphaVantageService._is_rate_limited`: false when the flag is unset;
when set and the reset time has passed (`now > reset`), the flag is cleared
(a state write) and false is returned; otherwise true. -/
def _is_rate_limited (st : AVState) (now : Nat) : Bool × AVState :=
  if st.rate_limited = false then (false, st)
  else
    match st.rate_limit_reset_time with
    | some r =>
      if now > r then (false, { rate_limited := false, rate_limit_reset_time := none })
      else (true, st)
    | none => (true, st)

/-- Source `AlphaVantageService._mark_rate_limited`: set the flag with a reset time
24 hours in the future. -/
def _mark_rate_limited (now : Nat) : AVState :=
  { rate_limited := true, rate_limit_reset_time := some (now + 24 * 3600) }

/-- The rate-limit test of `AlphaVantageService.get_stock_quote`:
`"rate limit" in error_msg.lower() or "25 requests per day" in error_msg`. -/
def quoteRateLimitHit (msg : String) : Bool :=
  strContains (lowerStr msg) "rate limit" || strContains msg "25 requests per day"

/-- Quote construction of `AlphaVantageService._get_fallback_quote`: Yahoo
data with source `'Yahoo Finance (Alpha Vantage Fallback)'`.  Unlike the
hybrid class, this site divides by `previous_close` without a zero guard;
`ℚ` division-by-zero yields `0` here where numpy would yield `±inf`/`NaN` —
no claim settled below depends on that field of this record. -/
def mkYahooAVFallbackQuote (symbol : String) (d : YahooRaw) : Quote :=
  let current := d.close
  let prev := d.previousClose.getD current
  { symbol := symbol
    price := current
    change := current - prev
    change_percent := (current - prev) / prev * 100
    volume := d.volume
    highP := d.highP
    lowP := d.lowP
    openP := d.openP
    previous_close := prev
    source := "Yahoo Finance (Alpha Vantage Fallback)" }

/-- Source `AlphaVantageService._get_fallback_quote`: build the Yahoo quote, `None`
when Yahoo has no data (or raises). -/
def _get_fallback_quote (yahoo : String → Option YahooRaw) (symbol : String) :
    Option Quote :=
  (yahoo symbol).map (mkYahooAVFallbackQuote symbol)

/-- A successful Alpha Vantage quote dict: the frame's key/value rows plus
the fields written afterwards (`symbol` keeps the original symbol,
`alpha_vantage_symbol` records the candidate that worked, `source`). -/
structure AVQuote where
  rows : List (String × String)
  symbol : String
  alpha_vantage_symbol : String
  source : String
deriving DecidableEq, Repr

/-- The result of one `get_stock_quote` call: either an Alpha Vantage quote
or the Yahoo fallback quote, the adapter state after the call, and the
list of candidate symbols actually sent to the Alpha Vantage client. -/
structure QuoteOutcome where
  result : Option (AVQuote ⊕ Quote)
  state : AVState
  attempts : List String
deriving Repr

/-- The `for try_symbol in symbols_to_try` loop of
`AlphaVantageService.get_stock_quote`: return on the first candidate with a
non-empty frame; on a rate-limit exception mark the flag and return the
fallback; on an empty frame or other exception continue; when every
candidate is exhausted return the fallback. -/
def quoteLoop (st : AVState) (now : Nat)
    (av : String → Except String (Option (List (String × String))))
    (yahoo : String → Option YahooRaw) (symbol : String) :
    List String → QuoteOutcome
  | [] => ⟨(_get_fallback_quote yahoo symbol).map Sum.inr, st, []⟩
  | t :: rest =>
    match av t with
    | .ok (some rows) =>
      ⟨some (Sum.inl ⟨rows, symbol, t, "Alpha Vantage"⟩), st, [t]⟩
    | .ok none =>
      let o := quoteLoop st now av yahoo symbol rest
      ⟨o.result, o.state, t :: o.attempts⟩
    | .error msg =>
      if quoteRateLimitHit msg then
        ⟨(_get_fallback_quote yahoo symbol).map Sum.inr, _mark_rate_limited now, [t]⟩
      else
        let o := quoteLoop st now av yahoo symbol rest
        ⟨o.result, o.state, t :: o.attempts⟩

/-- Source `AlphaVantageService.get_stock_quote`: `None` when the service is
disabled; the fallback straight away while rate limited; otherwise the
candidate loop over `_get_fallback_symbols`. -/
def av_get_stock_quote (enabled : Bool) (st : AVState) (now : Nat)
    (av : String → Except String (Option (List (String × String))))
    (yahoo : String → Option YahooRaw) (symbol : String) : QuoteOutcome :=
  if enabled = false then ⟨none, st, []⟩
  else
    match _is_rate_limited st now with
    | (true, st') => ⟨(_get_fallback_quote yahoo symbol).map Sum.inr, st', []⟩
    | (false, st') => quoteLoop st' now av yahoo symbol (_get_fallback_symbols symbol)

/-- The `source` field of a `get_stock_quote` result. -/
def qrSource : AVQuote ⊕ Quote → String
  | Sum.inl a => a.source
  | Sum.inr q => q.source

/-! ### Angel One adapter (`Backend/services/angel_one_service.py`)
Every data operation begins with `if not self._authenticate(): return None`.
The login HTTP call is an oracle (`some token` for a successful login
response, `none` for a failed status or a raised exception), and each
operation's own HTTP response is likewise a pre-supplied `Option` payload.
`timedelta(hours=23)` is `23 * 3600` seconds. -/

/-- The session-token attributes of `AngelOneService`. -/
structure AngelState where
  auth_token : Option String
  token_expiry : Option Nat
deriving DecidableEq, Repr

/-- The login branch of `AngelOneService._authenticate`: on a successful
response store the token and set expiry to 23 hours in the future; on
failure return `False` with the state untouched. -/
def angelLogin (st : AngelState) (now : Nat) (login : Option String) :
    Bool × AngelState :=
  match login with
  | some tok => (true, { auth_token := some tok, token_expiry := some (now + 23 * 3600) })
  | none => (false, st)

/-- Source `AngelOneService._authenticate`: reuse the token while
`self.auth_token and self.token_expiry and now < self.token_expiry`,
otherwise perform a credential login. -/
def _authenticate (st : AngelState) (now : Nat) (login : Option String) :
    Bool × AngelState :=
  match st.auth_token, st.token_expiry with
  | some _, some e => if now < e then (true, st) else angelLogin st now login
  | _, _ => angelLogin st now login

/-- A quote row of the Angel One market-quote response (`fetched[0]`). -/
structure AngelRaw where
  ltp : ℚ
  openP : ℚ
  highP : ℚ
  lowP : ℚ
  closeP : ℚ
  volume : ℤ
  netPrice : ℚ
deriving DecidableEq, Repr

/-- The quote dict built by `AngelOneService.get_stock_quote`:
`change_percent = netPrice / close * 100 if quote.get('close') else 0`
(so a zero close short-circuits to `0`), exchange from the symbol suffix,
source `'Angel One'`. -/
structure AngelQuote where
  symbol : String
  price : ℚ
  openP : ℚ
  highP : ℚ
  lowP : ℚ
  closeP : ℚ
  volume : ℤ
  change : ℚ
  change_percent : ℚ
  exchange : String
  source : String
deriving DecidableEq, Repr

/-- Quote-row formatting inside `AngelOneService.get_stock_quote`. -/
def mkAngelQuote (symbol : String) (q : AngelRaw) : AngelQuote :=
  { symbol := symbol
    price := q.ltp
    openP := q.openP
    highP := q.highP
    lowP := q.lowP
    closeP := q.closeP
    volume := q.volume
    change := q.netPrice
    change_percent := if q.closeP ≠ 0 then q.netPrice / q.closeP * 100 else 0
    exchange := if strEndsWith symbol ".NS" then "NSE" else "BSE"
    source := "Angel One" }

/-- Source `AngelOneService.get_stock_quote`: authenticate first; on failure return
`None`; otherwise format the response row (`none` models an error status,
an empty `fetched` list, or a raised exception). -/
def angel_get_stock_quote (st : AngelState) (now : Nat) (login : Option String)
    (resp : Option AngelRaw) (symbol : String) : Option AngelQuote × AngelState :=
  match _authenticate st now login with
  | (true, st') => (resp.map (mkAngelQuote symbol), st')
  | (false, st') => (none, st')

/-- A formatted candle of `AngelOneService.get_historical_data`. -/
structure Candle where
  date : Nat
  openP : ℚ
  highP : ℚ
  lowP : ℚ
  closeP : ℚ
  volume : ℤ
deriving DecidableEq, Repr

/-- Source `AngelOneService.get_historical_data`: authenticate first; on failure
`None`; otherwise the formatted candle list from the response. -/
def angel_get_historical_data (st : AngelState) (now : Nat) (login : Option String)
    (resp : Option (List Candle)) : Option (List Candle) × AngelState :=
  match _authenticate st now login with
  | (true, st') => (resp, st')
  | (false, st') => (none, st')

/-- The market-status record of `AngelOneService.get_market_status`. -/
structure MarketStatus where
  nseOpen : Bool
  bseOpen : Bool
deriving DecidableEq, Repr

/-- Source `AngelOneService.get_market_status`: authenticate first; on failure
`None`. -/
def angel_get_market_status (st : AngelState) (now : Nat) (login : Option String)
    (resp : Option MarketStatus) : Option MarketStatus × AngelState :=
  match _authenticate st now login with
  | (true, st') => (resp, st')
  | (false, st') => (none, st')

/-- Source `AngelOneService.get_indices_data`: authenticate first; on failure
`None`; otherwise the index-name/price/change rows from the response. -/
def angel_get_indices_data (st : AngelState) (now : Nat) (login : Option String)
    (resp : Option (List (String × ℚ × ℚ))) :
    Option (List (String × ℚ × ℚ)) × AngelState :=
  match _authenticate st now login with
  | (true, st') => (resp, st')
  | (false, st') => (none, st')

/-- A sequence of `get_stock_quote` calls, threading the adapter state:
each entry is (current time, login-oracle outcome, quote response, symbol). -/
def runQuoteCalls (st : AngelState) :
    List (Nat × Option String × Option AngelRaw × String) →
    List (Option AngelQuote) × AngelState
  | [] => ([], st)
  | (now, login, resp, sym) :: rest =>
    let (r, st') := angel_get_stock_quote st now login resp sym
    let (rs, st'') := runQuoteCalls st' rest
    (r :: rs, st'')

/-! ### Cache (`get_cached_data` / `cache_data` used by
`main_combined.py`).  The backing module `models/database.py` is imported
by `main_combined.py` but is not among the provided sources, so the cache
is modelled from the spec. -/

/-- Modelled from the spec: the cache store behind `init_db`,
`get_cached_data` and `cache_data` (module `models/database.py`, absent
from the sources).  Per spec §4.4 and §3, a cache entry is
(key, value, expiry time); `put(k, v, ttl_minutes)` stores the value with
expiry `now + ttl`; entries are never proactively purged.  Newest entry
for a key shadows older ones. -/
def cache_data {α : Type} (key : String) (value : α) (expiry_minutes now : Nat)
    (c : List (String × α × Nat)) : List (String × α × Nat) :=
  (key, value, now + expiry_minutes * 60) :: c

/-- Modelled from the spec: `get(key)` returns absent if the entry does not
exist or current time exceeds the stored expiry; lazy expiry only — the
store itself is not modified. -/
def get_cached_data {α : Type} (key : String) (now : Nat)
    (c : List (String × α × Nat)) : Option α :=
  match c.find? (fun e => e.1 == key) with
  | some (_, v, exp) => if now > exp then none else some v
  | none => none

/-! ### Theorems -/

/-- C10: in the hybrid service's Yahoo Finance quote fallback, whenever the
previous-close value is zero the computed `change_percent` field is `0`
rather than the result of a division — the guard
`if previous_close != 0` makes the construction total. -/
theorem hybrid_change_percent_zero_guard (symbol : String) (d : YahooRaw)
    (h : d.previousClose.getD d.close = 0) :
    (mkYahooHybridQuote symbol d).change_percent = 0 := by
  simp [mkYahooHybridQuote, h]

/-- Witness for C10: a concrete Yahoo record with `previousClose = 0`. -/
theorem hybrid_change_percent_zero_guard_witness :
    ((⟨10, 9, 11, 8, 1000, some 0, 0, "INR"⟩ : YahooRaw).previousClose.getD
      (⟨10, 9, 11, 8, 1000, some 0, 0, "INR"⟩ : YahooRaw).close = 0) ∧
    (mkYahooHybridQuote "RELIANCE.NS"
      ⟨10, 9, 11, 8, 1000, some 0, 0, "INR"⟩).change_percent = 0 :=
  ⟨by decide, hybrid_change_percent_zero_guard "RELIANCE.NS" _ (by decide)⟩

/-- C5: `cache_data(k, v, ttl)` immediately followed by
`get_cached_data(k)` returns `v`; once current time exceeds the stored
expiry the entry reads as absent (lazy expiry — reads never modify the
store, and other keys are untouched by the write). -/
theorem cache_put_get_roundtrip {α : Type} (k : String) (v : α) (ttl now : Nat)
    (c : List (String × α × Nat)) (httl : 0 < ttl) :
    get_cached_data k now (cache_data k v ttl now c) = some v ∧
    (∀ t, now + ttl * 60 < t →
      get_cached_data k t (cache_data k v ttl now c) = none) ∧
    (∀ k', k' ≠ k → ∀ t,
      get_cached_data k' t (cache_data k v ttl now c) = get_cached_data k' t c) := by
  have hfind : List.find? (fun e => e.1 == k) ((k, v, now + ttl * 60) :: c) =
      some (k, v, now + ttl * 60) :=
    List.find?_cons_of_pos _ (by simp)
  refine ⟨?_, ?_, ?_⟩
  · simp only [get_cached_data, cache_data, hfind]
    exact if_neg (by omega)
  · intro t ht
    simp only [get_cached_data, cache_data, hfind]
    exact if_pos (by omega)
  · intro k' hk t
    have hstep : List.find? (fun e => e.1 == k') ((k, v, now + ttl * 60) :: c) =
        List.find? (fun e => e.1 == k') c :=
      List.find?_cons_of_neg _ (by simpa using fun h => hk h.symm)
    simp only [get_cached_data, cache_data, hstep]

/-- Witness for C5: a concrete put/get round trip. -/
theorem cache_put_get_roundtrip_witness :
    (0 < 5) ∧
    (get_cached_data "stock_AAPL_6mo_1d" 1000
        (cache_data "stock_AAPL_6mo_1d" (42 : Nat) 5 1000 []) = some 42 ∧
      (∀ t, 1000 + 5 * 60 < t →
        get_cached_data "stock_AAPL_6mo_1d" t
          (cache_data "stock_AAPL_6mo_1d" (42 : Nat) 5 1000 []) = none) ∧
      (∀ k', k' ≠ "stock_AAPL_6mo_1d" → ∀ t,
        get_cached_data k' t
            (cache_data "stock_AAPL_6mo_1d" (42 : Nat) 5 1000 []) =
          get_cached_data k' t ([] : List (String × Nat × Nat)))) :=
  ⟨by decide, cache_put_get_roundtrip "stock_AAPL_6mo_1d" 42 5 1000 [] (by decide)⟩

/-- C1: for every symbol ending in `.NS` or `.BSE`, the hybrid resolver's
quote operation consults only the Yahoo Finance adapter (the invocation
trace is exactly one Yahoo call, so Alpha Vantage is never invoked), and
any present result carries the Yahoo Finance source tag. -/
theorem hybrid_quote_indian_yahoo_only (env : HybridEnv) (symbol : String)
    (h : is_indian_symbol symbol = true) :
    (hybrid_get_quote env symbol).2 = [PCall.yahooFinance symbol] ∧
    ∀ r, (hybrid_get_quote env symbol).1 = some r →
      r.source = "Yahoo Finance (Hybrid Fallback)" := by
  constructor
  · simp [hybrid_get_quote, h]
  · intro r hr
    simp only [hybrid_get_quote, h, if_true, if_pos] at hr
    obtain ⟨d, _, rfl⟩ := Option.map_eq_some'.mp hr
    rfl

/-- Witness for C1: the Indian symbol `RELIANCE.NS` against a concrete
environment. -/
theorem hybrid_quote_indian_yahoo_only_witness :
    is_indian_symbol "RELIANCE.NS" = true ∧
    ((hybrid_get_quote
        ⟨true, fun _ => Except.ok none,
          fun _ => some ⟨10, 9, 11, 8, 1000, some 9, 0, "INR"⟩⟩
        "RELIANCE.NS").2 = [PCall.yahooFinance "RELIANCE.NS"] ∧
      ∀ r, (hybrid_get_quote
        ⟨true, fun _ => Except.ok none,
          fun _ => some ⟨10, 9, 11, 8, 1000, some 9, 0, "INR"⟩⟩
        "RELIANCE.NS").1 = some r →
        r.source = "Yahoo Finance (Hybrid Fallback)") :=
  ⟨by decide, hybrid_quote_indian_yahoo_only _ "RELIANCE.NS" (by decide)⟩

/-- C2: for every symbol not ending in `.NS` or `.BSE` (with the Alpha
Vantage client configured), the hybrid resolver calls the Alpha Vantage
adapter first; whenever that primary call returns a valid (non-empty)
quote, the result is the Alpha Vantage record whose `source` field is
`'Alpha Vantage'` and the trace shows Yahoo Finance was not called. -/
theorem hybrid_quote_us_av_primary (env : HybridEnv) (symbol : String)
    (hin : is_indian_symbol symbol = false) (hen : env.enabled = true) :
    ((hybrid_get_quote env symbol).2).head? = some (PCall.alphaVantage symbol) ∧
    ∀ rows, env.av symbol = .ok (some rows) →
      (hybrid_get_quote env symbol).1 =
        some (.avQuote symbol rows "Alpha Vantage") ∧
      HybridResult.source (.avQuote symbol rows "Alpha Vantage") = "Alpha Vantage" ∧
      (hybrid_get_quote env symbol).2 = [PCall.alphaVantage symbol] := by
  constructor
  · rcases hav : env.av symbol with msg | o
    · simp [hybrid_get_quote, hin, hen, hav]
    · cases o <;> simp [hybrid_get_quote, hin, hen, hav]
  · intro rows hrows
    refine ⟨?_, rfl, ?_⟩ <;> simp [hybrid_get_quote, hin, hen, hrows]

/-- Witness for C2: the US symbol `AAPL` against a concrete environment
whose Alpha Vantage oracle returns a row. -/
theorem hybrid_quote_us_av_primary_witness :
    is_indian_symbol "AAPL" = false ∧
    (⟨true, fun _ => Except.ok (some [("05. price", "123.45")]),
        fun _ => none⟩ : HybridEnv).enabled = true ∧
    (((hybrid_get_quote
        ⟨true, fun _ => Except.ok (some [("05. price", "123.45")]),
          fun _ => none⟩ "AAPL").2).head? = some (PCall.alphaVantage "AAPL") ∧
      ∀ rows,
        (⟨true, fun _ => Except.ok (some [("05. price", "123.45")]),
            fun _ => none⟩ : HybridEnv).av "AAPL" = .ok (some rows) →
        (hybrid_get_quote
            ⟨true, fun _ => Except.ok (some [("05. price", "123.45")]),
              fun _ => none⟩ "AAPL").1 =
          some (.avQuote "AAPL" rows "Alpha Vantage") ∧
        HybridResult.source (.avQuote "AAPL" rows "Alpha Vantage") = "Alpha Vantage" ∧
        (hybrid_get_quote
            ⟨true, fun _ => Except.ok (some [("05. price", "123.45")]),
              fun _ => none⟩ "AAPL").2 = [PCall.alphaVantage "AAPL"]) :=
  ⟨by decide, rfl, hybrid_quote_us_av_primary _ "AAPL" (by decide) rfl⟩

/-- C6: for every close-price series of length at least `n` (with `n`
positive, as pandas requires), the last rolling-mean entry — the value
`get_technical_indicators` reads with `.iloc[-1]` — is exactly the
arithmetic mean of the final `n` closes, and the first `n-1` positions of
the rolling series are absent (`NaN`). -/
theorem sma_trailing_mean (n : Nat) (xs : List ℚ) (hn : 0 < n)
    (hlen : n ≤ xs.length) :
    (rollingMean n xs).getLast? =
      some (some ((xs.drop (xs.length - n)).sum / n)) ∧
    ∀ i, i + 1 < n → (rollingMean n xs)[i]? = some none := by
  have hx : 0 < xs.length := lt_of_lt_of_le hn hlen
  constructor
  · have hlast : (rollingMean n xs).length = xs.length := by
      simp [rollingMean]
    rw [List.getLast?_eq_getElem?, hlast]
    rw [rollingMean, List.getElem?_map, List.getElem?_range (by omega)]
    have h1 : xs.length - 1 + 1 = xs.length := by omega
    simp only [Option.map_some', h1, if_pos hlen, List.take_length]
  · intro i hi
    have hilen : i < xs.length := by omega
    rw [rollingMean, List.getElem?_map, List.getElem?_range hilen]
    simp only [Option.map_some', if_neg (by omega : ¬ n ≤ i + 1)]

/-- Witness for C6: `SMA(3)` over `[1, 2, 3, 4]`. -/
theorem sma_trailing_mean_witness :
    (0 < 3) ∧ (3 ≤ ([1, 2, 3, 4] : List ℚ).length) ∧
    ((rollingMean 3 [1, 2, 3, 4]).getLast? =
        some (some ((([1, 2, 3, 4] : List ℚ).drop (([1, 2, 3, 4] : List ℚ).length - 3)).sum / 3)) ∧
      ∀ i, i + 1 < 3 → (rollingMean 3 ([1, 2, 3, 4] : List ℚ))[i]? = some none) :=
  ⟨by decide, by decide, sma_trailing_mean 3 [1, 2, 3, 4] (by decide) (by decide)⟩

/-- The adjusted exponentially weighted sum gains one term per appended
(oldest) element, weighted by the next power of `1 - a`. -/
theorem expWeightedSum_append (a : ℚ) (l : List ℚ) (x : ℚ) :
    expWeightedSum a (l ++ [x]) =
      expWeightedSum a l + (1 - a) ^ l.length * x := by
  induction l with
  | nil => simp [expWeightedSum]
  | cons y l ih => simp [expWeightedSum, ih]; ring

/-- The geometric weight total gains `(1-a)^n` when extended by one. -/
theorem expWeightTotal_succ_eq (a : ℚ) (n : Nat) :
    expWeightTotal a (n + 1) = expWeightTotal a n + (1 - a) ^ n := by
  induction n with
  | zero => simp [expWeightTotal]
  | succ m ih =>
    calc expWeightTotal a (m + 2) = 1 + (1 - a) * expWeightTotal a (m + 1) := rfl
    _ = 1 + (1 - a) * (expWeightTotal a m + (1 - a) ^ m) := by rw [ih]
    _ = expWeightTotal a (m + 1) + (1 - a) ^ (m + 1) := by
        simp [expWeightTotal]; ring

/-- Invariant of the pandas `ewm` recurrence: with accumulators `num`,
`den`, entry `t` is the adjusted weighted average of the first `t+1`
values plus the decayed accumulator contributions. -/
theorem ewmAux_getElem? (a : ℚ) (xs : List ℚ) (num den : ℚ) (t : Nat)
    (ht : t < xs.length) :
    (ewmAux a num den xs)[t]? =
      some ((expWeightedSum a ((xs.take (t + 1)).reverse) + (1 - a) ^ (t + 1) * num) /
        (expWeightTotal a (t + 1) + (1 - a) ^ (t + 1) * den)) := by
  induction xs generalizing num den t with
  | nil => simp at ht
  | cons x rest ih =>
    cases t with
    | zero =>
      simp only [ewmAux, List.getElem?_cons_zero, List.take_succ_cons,
        List.take_zero, List.reverse_cons, List.reverse_nil, List.nil_append,
        expWeightedSum, expWeightTotal, Option.some.injEq]
      congr 1 <;> ring
    | succ s =>
      have hs : s < rest.length := by simpa using Nat.lt_of_succ_lt_succ ht
      have hlen : (rest.take (s + 1)).length = s + 1 := by
        simp [List.length_take]; omega
      simp only [ewmAux, List.getElem?_cons_succ]
      rw [ih _ _ s hs]
      have htake : ((x :: rest).take (s + 1 + 1)).reverse =
          (rest.take (s + 1)).reverse ++ [x] := by
        simp [List.take_succ_cons]
      rw [Option.some.injEq, htake, expWeightedSum_append, List.length_reverse,
        hlen, expWeightTotal_succ_eq a (s + 1)]
      congr 1 <;> ring

/-- C7 (amended): every entry of the EMA series computed by
`ewm(span=n).mean()` is the exponentially weighted average of the values so
far with smoothing factor `a = 2/(n+1)` — and its first value equals the
first close of the series (not the series mean). -/
theorem ema_weighted_form (span : Nat) (xs : List ℚ) (t : Nat)
    (ht : t < xs.length) :
    (ewmMean span xs)[t]? =
      some (expWeightedSum (2 / ((span : ℚ) + 1)) ((xs.take (t + 1)).reverse) /
        expWeightTotal (2 / ((span : ℚ) + 1)) (t + 1)) ∧
    ∀ x rest, xs = x :: rest → (ewmMean span xs).head? = some x := by
  constructor
  · rw [ewmMean, ewmAux_getElem? _ _ _ _ _ ht]
    simp
  · rintro x rest rfl
    simp [ewmMean, ewmAux]

/-- C7 counterexample: for the series `[2, 6]` (mean `4`) at span `2`, the
pandas EMA's first value is `2`, the first close — not the series mean the
claim asserts as the seed. -/
theorem ema_seed_counterexample :
    (ewmMean 2 [2, 6]).head? = some 2 ∧
    ¬ (ewmMean 2 [2, 6]).head? = some (([2, 6] : List ℚ).sum / 2) := by
  constructor
  · norm_num [ewmMean, ewmAux]
  · norm_num [ewmMean, ewmAux]

/-- Witness for C7 (amended): the closed form and the seed at a concrete
series. -/
theorem ema_weighted_form_witness :
    (1 < ([2, 6] : List ℚ).length) ∧
    ((ewmMean 2 ([2, 6] : List ℚ))[1]? =
        some (expWeightedSum (2 / ((2 : ℚ) + 1)) ((([2, 6] : List ℚ).take 2).reverse) /
          expWeightTotal (2 / ((2 : ℚ) + 1)) 2) ∧
      ∀ x rest, ([2, 6] : List ℚ) = x :: rest →
        (ewmMean 2 ([2, 6] : List ℚ)).head? = some x) :=
  ⟨by decide, ema_weighted_form 2 [2, 6] 1 (by decide)⟩

/-- C3: if the primary Alpha Vantage call for the first candidate symbol
raises an error containing `"rate limit"` (case-insensitively), the
process-wide flag is set with a reset time 24 hours ahead and the result is
the Yahoo Finance fallback (whose present quotes carry the fallback source
tag); and every subsequent request made while the reset time has not passed
sends nothing to Alpha Vantage and returns the fallback directly. -/
theorem av_rate_limit_cooldown (st : AVState) (now : Nat)
    (av : String → Except String (Option (List (String × String))))
    (yahoo : String → Option YahooRaw) (symbol msg s0 : String)
    (rest : List String)
    (hst : st.rate_limited = false)
    (hsyms : _get_fallback_symbols symbol = s0 :: rest)
    (hav : av s0 = .error msg)
    (hmsg : strContains (lowerStr msg) "rate limit" = true) :
    (av_get_stock_quote true st now av yahoo symbol).state =
      ⟨true, some (now + 24 * 3600)⟩ ∧
    (av_get_stock_quote true st now av yahoo symbol).result =
      (_get_fallback_quote yahoo symbol).map Sum.inr ∧
    (∀ q, (av_get_stock_quote true st now av yahoo symbol).result = some q →
      qrSource q = "Yahoo Finance (Alpha Vantage Fallback)") ∧
    (∀ t', t' ≤ now + 24 * 3600 →
      (av_get_stock_quote true ⟨true, some (now + 24 * 3600)⟩ t' av yahoo
        symbol).attempts = [] ∧
      (av_get_stock_quote true ⟨true, some (now + 24 * 3600)⟩ t' av yahoo
        symbol).result = (_get_fallback_quote yahoo symbol).map Sum.inr) := by
  have hlim : _is_rate_limited st now = (false, st) := by
    simp [_is_rate_limited, hst]
  have hhit : quoteRateLimitHit msg = true := by
    simp [quoteRateLimitHit, hmsg]
  have hmain : av_get_stock_quote true st now av yahoo symbol =
      ⟨(_get_fallback_quote yahoo symbol).map Sum.inr,
        _mark_rate_limited now, [s0]⟩ := by
    simp only [av_get_stock_quote, hlim, hsyms, quoteLoop, hav, hhit, if_true,
      Bool.true_eq_false, if_false]
  refine ⟨by rw [hmain]; rfl, by rw [hmain], ?_, ?_⟩
  · intro q hq
    rw [hmain] at hq
    obtain ⟨y, _, rfl⟩ := Option.map_eq_some'.mp hq
    obtain ⟨d, _, rfl⟩ := Option.map_eq_some'.mp (by simpa [_get_fallback_quote] using hq)
    rfl
  · intro t' ht'
    have hlim' : _is_rate_limited ⟨true, some (now + 24 * 3600)⟩ t' =
        (true, ⟨true, some (now + 24 * 3600)⟩) := by
      simp only [_is_rate_limited]
      rw [if_neg (by simp), if_neg (by omega)]
    constructor <;> simp only [av_get_stock_quote, hlim', Bool.true_eq_false,
      if_false]

/-- Witness for C3: a concrete rate-limit failure for `AAPL`. -/
theorem av_rate_limit_cooldown_witness :
    ((⟨false, none⟩ : AVState).rate_limited = false) ∧
    (_get_fallback_symbols "AAPL" = ["AAPL"]) ∧
    (strContains (lowerStr "You have exceeded your API Rate Limit")
      "rate limit" = true) ∧
    ((av_get_stock_quote true ⟨false, none⟩ 100
        (fun _ => Except.error "You have exceeded your API Rate Limit")
        (fun _ => some ⟨10, 9, 11, 8, 1000, some 8, 0, "USD"⟩) "AAPL").state =
      ⟨true, some (100 + 24 * 3600)⟩ ∧
     (av_get_stock_quote true ⟨false, none⟩ 100
        (fun _ => Except.error "You have exceeded your API Rate Limit")
        (fun _ => some ⟨10, 9, 11, 8, 1000, some 8, 0, "USD"⟩) "AAPL").result =
      (_get_fallback_quote
        (fun _ => some ⟨10, 9, 11, 8, 1000, some 8, 0, "USD"⟩) "AAPL").map Sum.inr ∧
     (∀ q, (av_get_stock_quote true ⟨false, none⟩ 100
        (fun _ => Except.error "You have exceeded your API Rate Limit")
        (fun _ => some ⟨10, 9, 11, 8, 1000, some 8, 0, "USD"⟩) "AAPL").result = some q →
        qrSource q = "Yahoo Finance (Alpha Vantage Fallback)") ∧
     (∀ t', t' ≤ 100 + 24 * 3600 →
        (av_get_stock_quote true ⟨true, some (100 + 24 * 3600)⟩ t'
          (fun _ => Except.error "You have exceeded your API Rate Limit")
          (fun _ => some ⟨10, 9, 11, 8, 1000, some 8, 0, "USD"⟩) "AAPL").attempts = [] ∧
        (av_get_stock_quote true ⟨true, some (100 + 24 * 3600)⟩ t'
          (fun _ => Except.error "You have exceeded your API Rate Limit")
          (fun _ => some ⟨10, 9, 11, 8, 1000, some 8, 0, "USD"⟩) "AAPL").result =
          (_get_fallback_quote
            (fun _ => some ⟨10, 9, 11, 8, 1000, some 8, 0, "USD"⟩) "AAPL").map Sum.inr)) :=
  ⟨rfl, by decide, by decide,
    av_rate_limit_cooldown ⟨false, none⟩ 100 _ _ "AAPL"
      "You have exceeded your API Rate Limit" "AAPL" [] rfl (by decide) rfl
      (by decide)⟩

/-- C9: every Angel One data operation runs the authentication step first:
a valid unexpired token is reused as-is; otherwise a credential login runs
and on success sets the token expiry 23 hours ahead; when authentication
fails each of the four data operations (quote, historical, market status,
indices) returns `None`; and a run of quote calls whose login attempts all
fail returns `None` every time. -/
theorem angel_auth_gating (st : AngelState) (now : Nat) (login : Option String) :
    (∀ tok0 e, st.auth_token = some tok0 → st.token_expiry = some e →
      now < e → _authenticate st now login = (true, st)) ∧
    (st.auth_token = none ∨ st.token_expiry = none ∨
        (∀ e, st.token_expiry = some e → e ≤ now) →
      ∀ tok, login = some tok →
        _authenticate st now login =
          (true, ⟨some tok, some (now + 23 * 3600)⟩)) ∧
    ((_authenticate st now login).1 = false →
      (∀ resp symbol, (angel_get_stock_quote st now login resp symbol).1 = none) ∧
      (∀ resp, (angel_get_historical_data st now login resp).1 = none) ∧
      (∀ resp, (angel_get_market_status st now login resp).1 = none) ∧
      (∀ resp, (angel_get_indices_data st now login resp).1 = none)) ∧
    (∀ calls, st.auth_token = none → (∀ c ∈ calls, c.2.1 = none) →
      (runQuoteCalls st calls).1 = calls.map fun _ => none) := by
  refine ⟨?_, ?_, ?_, ?_⟩
  · intro tok0 e h1 h2 h3
    simp [_authenticate, h1, h2, h3]
  · intro hnv tok hlog
    rcases hst : st.auth_token with _ | tok0
    · simp [_authenticate, hst, angelLogin, hlog]
    · rcases hexp : st.token_expiry with _ | e
      · simp [_authenticate, hst, hexp, angelLogin, hlog]
      · have he : e ≤ now := by
          rcases hnv with h | h | h
          · exact absurd hst (by simp [h])
          · exact absurd hexp (by simp [h])
          · exact h e hexp
        simp [_authenticate, hst, hexp, angelLogin, hlog, Nat.not_lt.mpr he]
  · intro hfail
    rcases hA : _authenticate st now login with ⟨b, st'⟩
    have hb : b = false := by rw [hA] at hfail; exact hfail
    subst hb
    refine ⟨?_, ?_, ?_, ?_⟩ <;> intro resp
    · intro symbol
      simp [angel_get_stock_quote, hA]
    · simp [angel_get_historical_data, hA]
    · simp [angel_get_market_status, hA]
    · simp [angel_get_indices_data, hA]
  · intro calls hst hfailing
    induction calls with
    | nil => rfl
    | cons c rest ih =>
      obtain ⟨n, l, resp, sym⟩ := c
      have hl : l = none := hfailing _ (List.mem_cons_self _ _)
      subst hl
      have hstep : angel_get_stock_quote st n none resp sym = (none, st) := by
        rcases hexp : st.token_expiry with _ | e <;>
          simp [angel_get_stock_quote, _authenticate, hst, hexp, angelLogin]
      simp only [runQuoteCalls, hstep, List.map_cons]
      rw [ih fun c hc => hfailing c (List.mem_cons_of_mem _ hc)]

/-- Witness for C9: a fresh login sets the 23-hour expiry; failed logins
make the quote call and a two-call run return `None`. -/
theorem angel_auth_gating_witness :
    _authenticate ⟨none, none⟩ 5 (some "T") =
      (true, ⟨some "T", some (5 + 23 * 3600)⟩) ∧
    (angel_get_stock_quote ⟨none, none⟩ 5 none none "RELIANCE.NS").1 = none ∧
    (runQuoteCalls ⟨none, none⟩
      [(1, none, none, "TCS.NS"), (2, none, none, "TCS.NS")]).1 = [none, none] := by
  refine ⟨?_, ?_, ?_⟩
  · exact (angel_auth_gating ⟨none, none⟩ 5 (some "T")).2.1 (Or.inl rfl) "T" rfl
  · exact ((angel_auth_gating ⟨none, none⟩ 5 none).2.2.1 rfl).1 none "RELIANCE.NS"
  · exact (angel_auth_gating ⟨none, none⟩ 0 none).2.2.2
      [(1, none, none, "TCS.NS"), (2, none, none, "TCS.NS")] rfl (by decide)

/-- A list of zeros sums to zero. -/
theorem list_sum_zero_of_all_zero (l : List ℚ) (h : ∀ x ∈ l, x = 0) :
    l.sum = 0 := by
  induction l with
  | nil => rfl
  | cons y l ih =>
    rw [List.sum_cons, h y (List.mem_cons_self y l),
      ih fun x hx => h x (List.mem_cons_of_mem _ hx), add_zero]

/-- A list of non-negatives with a positive member has positive sum. -/
theorem list_sum_pos_of_mem (l : List ℚ) (h0 : ∀ x ∈ l, 0 ≤ x) (x : ℚ)
    (hx : x ∈ l) (hxpos : 0 < x) : 0 < l.sum := by
  induction l with
  | nil => simp at hx
  | cons y l ih =>
    rw [List.sum_cons]
    rcases List.mem_cons.mp hx with rfl | hm
    · have h2 : 0 ≤ l.sum :=
        List.sum_nonneg fun z hz => h0 z (List.mem_cons_of_mem _ hz)
      linarith
    · have h1 : 0 ≤ y := h0 y (List.mem_cons_self y l)
      have h2 : 0 < l.sum := ih (fun z hz => h0 z (List.mem_cons_of_mem _ hz)) hm
      linarith

/-- C4 counterexample: the constant series of 15 closes has no negative
delta in its trailing 14-delta window, yet `_calculate_rsi` evaluates to
`NaN` (`0/0` for `rs`), not to the claimed value `100`. -/
theorem rsi_flat_window_counterexample :
    nonNegTrailingDeltas [(1 : ℚ), 1, 1, 1, 1, 1, 1, 1, 1, 1, 1, 1, 1, 1, 1] = true ∧
    calcRSI [(1 : ℚ), 1, 1, 1, 1, 1, 1, 1, 1, 1, 1, 1, 1, 1, 1] = some FVal.nan ∧
    calcRSI [(1 : ℚ), 1, 1, 1, 1, 1, 1, 1, 1, 1, 1, 1, 1, 1, 1] ≠ some (FVal.fin 100) := by
  have h2 : calcRSI [(1 : ℚ), 1, 1, 1, 1, 1, 1, 1, 1, 1, 1, 1, 1, 1, 1] = some FVal.nan := by
    norm_num [calcRSI, gains, losses, deltas, List.zipWith, rollMeanLast,
      fdiv, fadd, fsub]
  refine ⟨by norm_num [nonNegTrailingDeltas, deltas, List.zipWith, List.all], h2, ?_⟩
  rw [h2]
  simp

/-- C4 (amended): for every close-price series of length at least 15 whose
trailing 14-delta window has no negative delta and at least one positive
delta, the RSI computation divides only within IEEE semantics (no raised
error is modelled — the function is total) and returns exactly 100:
`rs = gain/0 = +inf` and `100 - 100/(1 + inf) = 100`. -/
theorem rsi_window_no_losses (ps : List ℚ) (h15 : 15 ≤ ps.length)
    (hnn : ∀ d ∈ (deltas ps).drop ((deltas ps).length - 14), 0 ≤ d)
    (hpos : ∃ d ∈ (deltas ps).drop ((deltas ps).length - 14), 0 < d) :
    calcRSI ps = some (FVal.fin 100) := by
  obtain ⟨p, rest, rfl⟩ : ∃ p rest, ps = p :: rest := by
    cases ps with
    | nil => simp at h15
    | cons p rest => exact ⟨p, rest, rfl⟩
  have hDlen : (deltas (p :: rest)).length = rest.length := by
    simp [deltas]
  have hD14 : 14 ≤ (deltas (p :: rest)).length := by
    rw [hDlen]
    simp only [List.length_cons] at h15
    omega
  have hdropcount : (deltas (p :: rest)).length + 1 - 14 =
      ((deltas (p :: rest)).length - 14) + 1 := by omega
  -- the loss window is all zeros
  have hlosses : rollMeanLast 14 (losses (p :: rest)) = some 0 := by
    have hlen : 14 ≤ (losses (p :: rest)).length := by
      simp only [losses, List.length_cons, List.length_map]
      omega
    have hdrop : (losses (p :: rest)).drop ((losses (p :: rest)).length - 14) =
        ((deltas (p :: rest)).drop ((deltas (p :: rest)).length - 14)).map
          fun d => if d < 0 then -d else 0 := by
      simp only [losses, List.length_cons, List.length_map, hdropcount,
        List.drop_succ_cons, List.map_drop]
    have hzero : (((deltas (p :: rest)).drop ((deltas (p :: rest)).length - 14)).map
        fun d => if d < 0 then -d else 0).sum = 0 := by
      refine list_sum_zero_of_all_zero _ fun x hx => ?_
      obtain ⟨d, hd, rfl⟩ := List.mem_map.mp hx
      exact if_neg (not_lt.mpr (hnn d hd))
    rw [rollMeanLast, if_pos hlen, hdrop, hzero, zero_div]
  -- the gain window sums to a positive value
  have hgains : rollMeanLast 14 (gains (p :: rest)) =
      some ((((deltas (p :: rest)).drop ((deltas (p :: rest)).length - 14)).map
        fun d => if 0 < d then d else 0).sum / 14) := by
    have hlen : 14 ≤ (gains (p :: rest)).length := by
      simp only [gains, List.length_cons, List.length_map]
      omega
    have hdrop : (gains (p :: rest)).drop ((gains (p :: rest)).length - 14) =
        ((deltas (p :: rest)).drop ((deltas (p :: rest)).length - 14)).map
          fun d => if 0 < d then d else 0 := by
      simp only [gains, List.length_cons, List.length_map, hdropcount,
        List.drop_succ_cons, List.map_drop]
    rw [rollMeanLast, if_pos hlen, hdrop]
    norm_num
  have hgsum : 0 < (((deltas (p :: rest)).drop ((deltas (p :: rest)).length - 14)).map
      fun d => if 0 < d then d else 0).sum := by
    obtain ⟨d0, hd0, hd0pos⟩ := hpos
    refine list_sum_pos_of_mem _ (fun x hx => ?_) (if 0 < d0 then d0 else 0)
      (List.mem_map_of_mem _ hd0) (by rw [if_pos hd0pos]; exact hd0pos)
    obtain ⟨d, _, rfl⟩ := List.mem_map.mp hx
    split <;> [linarith; rfl]
  have hg : 0 < (((deltas (p :: rest)).drop ((deltas (p :: rest)).length - 14)).map
      fun d => if 0 < d then d else 0).sum / 14 := by positivity
  have hcalc : calcRSI (p :: rest) =
      some (fsub (.fin 100) (fdiv (.fin 100) (fadd (.fin 1)
        (fdiv (.fin ((((deltas (p :: rest)).drop
          ((deltas (p :: rest)).length - 14)).map
            fun d => if 0 < d then d else 0).sum / 14)) (.fin 0))))) := by
    simp [calcRSI, hgains, hlosses]
  rw [hcalc, show fdiv (.fin ((((deltas (p :: rest)).drop
      ((deltas (p :: rest)).length - 14)).map
        fun d => if 0 < d then d else 0).sum / 14)) (.fin 0) = .pinf by
    simp only [fdiv, if_pos rfl]
    rw [if_neg (ne_of_gt hg), if_pos hg]
    simp]
  norm_num [fadd, fdiv, fsub]

/-- Witness for C4 (amended): a strictly increasing 15-close series. -/
theorem rsi_window_no_losses_witness :
    nonNegTrailingDeltas [(1 : ℚ), 2, 3, 4, 5, 6, 7, 8, 9, 10, 11, 12, 13, 14, 15] = true ∧
    calcRSI [(1 : ℚ), 2, 3, 4, 5, 6, 7, 8, 9, 10, 11, 12, 13, 14, 15] =
      some (FVal.fin 100) :=
  ⟨by norm_num [nonNegTrailingDeltas, deltas, List.zipWith, List.all],
    rsi_window_no_losses _ (by norm_num)
      (by
        intro d hd
        norm_num [deltas, List.zipWith] at hd
        subst hd
        norm_num)
      ⟨1, by norm_num [deltas, List.zipWith], by norm_num⟩⟩

/-- The worker `replaceAllAux` maps the empty list to itself at any fuel. -/
theorem replaceAllAux_nil (pat rep : List Char) (fuel : Nat) :
    replaceAllAux pat rep fuel [] = [] := by
  cases fuel <;> rfl

/-- When the pattern matches at no position, `replaceAllAux` is the
identity. -/
theorem replaceAllAux_no_match (pat rep : List Char) :
    ∀ (fuel : Nat) (l : List Char), l.length ≤ fuel →
    (∀ k, k < l.length → pat.isPrefixOf (l.drop k) = false) →
    replaceAllAux pat rep fuel l = l := by
  intro fuel
  induction fuel with
  | zero => intro l _ _; rfl
  | succ f ih =>
    intro l hf h
    cases l with
    | nil => rfl
    | cons c cs =>
      have h0 : pat.isPrefixOf (c :: cs) = false := by simpa using h 0 (by simp)
      simp only [replaceAllAux]
      rw [if_neg fun hc => by simp [h0] at hc]
      have htail : replaceAllAux pat rep f cs = cs := by
        refine ih cs (by simpa using Nat.le_of_succ_le_succ hf) fun k hk => ?_
        simpa using h (k + 1) (by simpa using Nat.succ_lt_succ hk)
      rw [htail]

/-- When the pattern's only occurrence is the terminal one,
`replaceAllAux` replaces exactly that suffix. -/
theorem replaceAllAux_strip (pat rep : List Char) (hne : pat ≠ []) :
    ∀ (m : List Char) (fuel : Nat), m.length + pat.length ≤ fuel →
    (∀ k, k < m.length → pat.isPrefixOf ((m ++ pat).drop k) = false) →
    replaceAllAux pat rep fuel (m ++ pat) = m ++ rep := by
  intro m
  induction m with
  | nil =>
    intro fuel hf h
    obtain ⟨c, cs, rfl⟩ : ∃ c cs, pat = c :: cs := by
      cases pat with
      | nil => exact absurd rfl hne
      | cons c cs => exact ⟨c, cs, rfl⟩
    cases fuel with
    | zero => simp at hf
    | succ f =>
      simp only [List.nil_append, replaceAllAux]
      rw [if_pos ⟨hne, List.isPrefixOf_iff_prefix.mpr (List.prefix_refl _)⟩]
      rw [List.drop_length, replaceAllAux_nil]
      simp
  | cons c m' ih =>
    intro fuel hf h
    cases fuel with
    | zero => simp at hf
    | succ f =>
      have h0 : pat.isPrefixOf (c :: (m' ++ pat)) = false := by
        simpa using h 0 (by simp)
      simp only [List.cons_append, replaceAllAux]
      rw [if_neg fun hc => by simp [h0] at hc]
      have htail : replaceAllAux pat rep f (m' ++ pat) = m' ++ rep := by
        refine ih f (by simp only [List.length_cons] at hf; omega) fun k hk => ?_
        simpa using h (k + 1) (by simpa using Nat.succ_lt_succ hk)
      exact congrArg (c :: ·) htail

/-- Python `replace` with an only-terminal occurrence strips the suffix. -/
theorem pyReplace_strip (b pat : String) (hne : pat.toList ≠ [])
    (h : ∀ k, k < b.toList.length →
      pat.toList.isPrefixOf ((b.toList ++ pat.toList).drop k) = false) :
    pyReplace (b ++ pat) pat "" = b := by
  show String.mk (replaceAllAux pat.toList [] (b.toList ++ pat.toList).length
    (b.toList ++ pat.toList)) = b
  rw [replaceAllAux_strip pat.toList [] hne b.toList _ (by simp) h]
  simp

/-- Python `replace` with no occurrence is the identity. -/
theorem pyReplace_no_match (s pat : String)
    (h : ∀ k, k < s.toList.length →
      pat.toList.isPrefixOf (s.toList.drop k) = false) :
    pyReplace s pat "" = s := by
  show String.mk (replaceAllAux pat.toList [] s.toList.length s.toList) = s
  rw [replaceAllAux_no_match pat.toList [] s.toList.length s.toList le_rfl h]
  rfl

/-- Appending a suffix makes `endswith` true. -/
theorem strEndsWith_append (b pat : String) : strEndsWith (b ++ pat) pat = true := by
  simp [strEndsWith, List.isSuffixOf_iff_suffix]

/-- If the pattern is not a prefix of the final length-matched tail,
`endswith` is false. -/
theorem strEndsWith_eq_false_of_no_match (s pat : String)
    (h : pat.toList.isPrefixOf
      (s.toList.drop (s.toList.length - pat.toList.length)) = false) :
    strEndsWith s pat = false := by
  cases hsw : strEndsWith s pat with
  | false => rfl
  | true =>
    exfalso
    have hsuf := List.isSuffixOf_iff_suffix.mp hsw
    have heq := List.suffix_iff_eq_drop.mp hsuf
    have hnp : ¬ (pat.toList <+:
        s.toList.drop (s.toList.length - pat.toList.length)) := by
      rw [← List.isPrefixOf_iff_prefix, h]
      simp
    exact hnp (by rw [← heq])

/-- The predicate `is_indian_symbol` accepts any `.NS`-suffixed symbol. -/
theorem is_indian_symbol_NS (b : String) : is_indian_symbol (b ++ ".NS") = true := by
  simp [is_indian_symbol, strEndsWith_append]

/-- The predicate `is_indian_symbol` accepts any `.BSE`-suffixed symbol. -/
theorem is_indian_symbol_BSE (b : String) : is_indian_symbol (b ++ ".BSE") = true := by
  simp [is_indian_symbol, strEndsWith_append]

/-- Stripping the spec's way removes exactly the `.NS` suffix. -/
theorem stripIndianSuffix_NS (b : String) : stripIndianSuffix (b ++ ".NS") = b := by
  rw [stripIndianSuffix, if_pos (by simpa using strEndsWith_append b ".NS")]
  show String.mk ((b.toList ++ ".NS".toList).take
    ((b.toList ++ ".NS".toList).length - 3)) = b
  rw [List.length_append, show ".NS".toList.length = 3 from rfl,
    Nat.add_sub_cancel, List.take_left]
  rfl

/-- Stripping the spec's way removes exactly the `.BSE` suffix (when the
symbol does not also end in `.NS`). -/
theorem stripIndianSuffix_BSE (b : String)
    (hns : strEndsWith (b ++ ".BSE") ".NS" = false) :
    stripIndianSuffix (b ++ ".BSE") = b := by
  rw [stripIndianSuffix, if_neg (by simp [hns]),
    if_pos (by simpa using strEndsWith_append b ".BSE")]
  show String.mk ((b.toList ++ ".BSE".toList).take
    ((b.toList ++ ".BSE".toList).length - 4)) = b
  rw [List.length_append, show ".BSE".toList.length = 4 from rfl,
    Nat.add_sub_cancel, List.take_left]
  rfl

/-- C8 counterexample: for the Indian-suffixed symbol `TCS.NS.NS` (whose
bare ticker per the claim is `TCS.NS`), the code's `str.replace`-based
candidate list deletes every `.NS` occurrence and so differs from the
claim's suffix-stripped list. -/
theorem fallback_symbols_counterexample :
    is_indian_symbol "TCS.NS.NS" = true ∧
    _get_fallback_symbols "TCS.NS.NS" = ["TCS", "TCS.BSE", "TCS.NS"] ∧
    spec_fallback_candidates "TCS.NS.NS" = ["TCS.NS", "TCS.NS.BSE", "TCS.NS.NS"] ∧
    _get_fallback_symbols "TCS.NS.NS" ≠ spec_fallback_candidates "TCS.NS.NS" :=
  ⟨by decide, by decide, by decide, by decide⟩

/-- C8 (amended): over Indian symbols in which the exchange-suffix strings
occur only as the terminal suffix, the code's fallback-candidate list is
exactly the claimed one — mapped symbol when a table entry exists, then the
suffix-stripped bare ticker, then bare+`.BSE`, then bare+`.NS` (and `[s]`
for non-Indian symbols); in general the code deletes every occurrence of
`.NS` and then `.BSE`, not just the suffix. -/
theorem fallback_symbols_suffix_stripped (b : String)
    (hNS : ∀ k, k < b.toList.length →
      ".NS".toList.isPrefixOf ((b.toList ++ ".NS".toList).drop k) = false)
    (hBSE : ∀ k, k < b.toList.length →
      ".BSE".toList.isPrefixOf ((b.toList ++ ".BSE".toList).drop k) = false)
    (hNSfull : ∀ k, k < (b.toList ++ ".BSE".toList).length →
      ".NS".toList.isPrefixOf ((b.toList ++ ".BSE".toList).drop k) = false)
    (hBSEbase : ∀ k, k < b.toList.length →
      ".BSE".toList.isPrefixOf (b.toList.drop k) = false)
    (s : String) (hs : is_indian_symbol s = false) :
    _get_fallback_symbols (b ++ ".NS") = spec_fallback_candidates (b ++ ".NS") ∧
    _get_fallback_symbols (b ++ ".BSE") = spec_fallback_candidates (b ++ ".BSE") ∧
    _get_fallback_symbols s = [s] ∧ spec_fallback_candidates s = [s] := by
  refine ⟨?_, ?_, ?_, ?_⟩
  · have e1 : pyReplace (b ++ ".NS") ".NS" "" = b :=
      pyReplace_strip b ".NS" (by decide) hNS
    have e2 : pyReplace b ".BSE" "" = b := pyReplace_no_match b ".BSE" hBSEbase
    rw [_get_fallback_symbols, spec_fallback_candidates,
      if_pos (by simpa using is_indian_symbol_NS b),
      if_pos (by simpa using is_indian_symbol_NS b),
      get_alpha_vantage_fallback_symbols, e1, e2, stripIndianSuffix_NS]
  · have hnsSuffix : strEndsWith (b ++ ".BSE") ".NS" = false := by
      refine strEndsWith_eq_false_of_no_match _ _ ?_
      have hlen : (b ++ ".BSE").toList.length = b.toList.length + 4 := by
        show (b.toList ++ ".BSE".toList).length = b.toList.length + 4
        simp
      refine ?_
      have hk : (b ++ ".BSE").toList.length - ".NS".toList.length <
          (b.toList ++ ".BSE".toList).length := by
        show _ < (b ++ ".BSE").toList.length
        rw [hlen]
        show b.toList.length + 4 - 3 < b.toList.length + 4
        omega
      exact hNSfull _ hk
    have e3 : pyReplace (b ++ ".BSE") ".NS" "" = b ++ ".BSE" := by
      refine pyReplace_no_match _ ".NS" ?_
      show ∀ k, k < (b.toList ++ ".BSE".toList).length →
        ".NS".toList.isPrefixOf ((b.toList ++ ".BSE".toList).drop k) = false
      exact hNSfull
    have e4 : pyReplace (b ++ ".BSE") ".BSE" "" = b :=
      pyReplace_strip b ".BSE" (by decide) hBSE
    rw [_get_fallback_symbols, spec_fallback_candidates,
      if_pos (by simpa using is_indian_symbol_BSE b),
      if_pos (by simpa using is_indian_symbol_BSE b),
      get_alpha_vantage_fallback_symbols, e3, e4, stripIndianSuffix_BSE b hnsSuffix]
  · rw [_get_fallback_symbols, if_neg (by simp [hs])]
  · rw [spec_fallback_candidates, if_neg (by simp [hs])]

/-- Witness for C8 (amended): the base `RELIANCE` (and the non-Indian
symbol `AAPL`). -/
theorem fallback_symbols_suffix_stripped_witness :
    _get_fallback_symbols ("RELIANCE" ++ ".NS") =
      spec_fallback_candidates ("RELIANCE" ++ ".NS") ∧
    _get_fallback_symbols ("RELIANCE" ++ ".BSE") =
      spec_fallback_candidates ("RELIANCE" ++ ".BSE") ∧
    _get_fallback_symbols "AAPL" = ["AAPL"] ∧
    spec_fallback_candidates "AAPL" = ["AAPL"] :=
  fallback_symbols_suffix_stripped "RELIANCE" (by decide) (by decide)
    (by decide) (by decide) "AAPL" (by decide)

end FinDash
